import Mathlib

/-!
Verification development for the npm-most-depended-upon scripts.

The Python sources are embedded shallowly:
* `main.py` — the dependency-map pipeline (`create_dependency_map`,
  `build_inverse_dependency_map`, `build_transitive_dependant_map`,
  `count_all_dependants`, and the `--count-transitive` ranking in `main`).
* `build-markdown.py` — the top-N truncation of the ranked list.
* `download-package-index-chunked.py` — the `NpmRegistry` backon/backoff state.

Python `dict`s are modelled as association lists `List (String × α)` with
unique keys kept in insertion order, matching CPython's ordered dicts.
Python `set`s (whose iteration order is hash-dependent) are modelled as
duplicate-free lists in insertion order; every property proved about them
below depends only on their membership or cardinality, never on that order.
-/

/-- Embeds `Package` (main.py): only the `dependencies` dict is kept by the
pydantic model, and the validator coerces any non-dict to `{}`, so the
dependency names are modelled directly as a list of keys. -/
structure Package where
  dependencies : List String
deriving Repr, DecidableEq

/-- Embeds `DistTags` (main.py): `latest: Optional[str] = None`. -/
structure DistTags where
  latest : Option String
deriving Repr, DecidableEq

/-- Embeds `CouchDBDoc` (main.py): `dist_tags` and a `versions` dict mapping
version strings to `Package`, in insertion order. -/
structure CouchDBDoc where
  dist_tags : DistTags
  versions : List (String × Package)
deriving Repr, DecidableEq

/-- Python `max(iterable)` over a nonempty list, with the comparison `gt`
standing for the `>` of the element type: scans left to right, keeping the
current element unless a strictly greater one appears, so the first maximal
element wins — exactly CPython's behaviour. -/
def maxFrom {V : Type} (gt : V → V → Bool) (x : V) (xs : List V) : V :=
  xs.foldl (fun acc y => if gt y acc then y else acc) x

/-- Embeds the comprehension `[Version.parse(v) for v in versions]` inside a
`try`: the first parse failure aborts the whole comprehension (`none`),
otherwise all parsed values are returned. -/
def allSome {V : Type} : List (Option V) → Option (List V)
  | [] => some []
  | none :: _ => none
  | some x :: rest => (allSome rest).map (x :: ·)

/-- Embeds lines 67–78 of `get_latest_version` (main.py): parse every version
key with semver; if any parse raises, return the last key; otherwise return
the maximum non-prerelease parsed version (or the overall maximum if all are
prereleases), rendered back to a string. The external `semver` library is
taken as parameters: `parse` (None = `ValueError`), `pre` (the `prerelease`
attribute), `gt` (version `>`), `toStr` (`str`). -/
def semverFallback {V : Type} (parse : String → Option V) (pre : V → Option String)
    (gt : V → V → Bool) (toStr : V → String) (doc : CouchDBDoc) : String :=
  let keys := doc.versions.map Prod.fst
  match allSome (keys.map parse) with
  | none => keys.getLastD ""
  | some vs =>
    match vs.filter (fun v => (pre v).isNone) with
    | [] =>
      match vs with
      | [] => ""
      | v :: vrest => toStr (maxFrom gt v vrest)
    | np :: nps => toStr (maxFrom gt np nps)

/-- Embeds `get_latest_version` (main.py lines 59–78). `Except.error` models
the raised `ValueError`. The dist-tags branch fires when `latest` is truthy
(non-`None` and nonempty) and is a key of `versions`, mirroring
`if package_doc.dist_tags.latest and package_doc.dist_tags.latest in
package_doc.versions`. -/
def get_latest_version {V : Type} (parse : String → Option V) (pre : V → Option String)
    (gt : V → V → Bool) (toStr : V → String) (doc : CouchDBDoc) : Except String String :=
  if doc.versions.isEmpty then
    .error "Package has no versions"
  else
    match doc.dist_tags.latest with
    | some s =>
      if s ≠ "" ∧ (doc.versions.lookup s).isSome then .ok s
      else .ok (semverFallback parse pre gt toStr doc)
    | none => .ok (semverFallback parse pre gt toStr doc)

/-- Python dict assignment `m[k] = v`: replaces the value in place if the key
exists (keeping its position), otherwise appends the new key at the end. -/
def dictSet {α : Type} (m : List (String × α)) (k : String) (v : α) : List (String × α) :=
  match m with
  | [] => [(k, v)]
  | (k', v') :: rest => if k' = k then (k, v) :: rest else (k', v') :: dictSet rest k v

/-- Embeds `create_dependency_map` (main.py lines 81–102). Rows whose latest
version cannot be determined (`ValueError`) are skipped with a warning; a
resolved version string that is not a key of `versions` would raise an
uncaught `KeyError` in Python, modelled as `Except.error`. The
`AttributeError` branch is dead code (the pydantic validator guarantees
`dependencies` is a dict), so the key list is stored directly. -/
def create_dependency_map {V : Type} (parse : String → Option V) (pre : V → Option String)
    (gt : V → V → Bool) (toStr : V → String) (rows : List (String × CouchDBDoc)) :
    Except String (List (String × List String)) :=
  rows.foldlM
    (fun m row =>
      match get_latest_version parse pre gt toStr row.2 with
      | .error _ => pure m
      | .ok v =>
        match row.2.versions.lookup v with
        | none => .error "KeyError"
        | some pkg => pure (dictSet m row.1 pkg.dependencies))
    []

/-- One step of the inner loop of `build_inverse_dependency_map`:
`inverse_dependency_map[dependency].add(package)` on a `defaultdict(set)`.
New keys are appended at the end (dict insertion order); the set value is a
duplicate-free list, and adding an existing member is a no-op. -/
def addDependant (m : List (String × List String)) (dep pkg : String) :
    List (String × List String) :=
  match m with
  | [] => [(dep, [pkg])]
  | (k, v) :: rest =>
    if k = dep then (k, if pkg ∈ v then v else v ++ [pkg]) :: rest
    else (k, v) :: addDependant rest dep pkg

/-- Embeds `build_inverse_dependency_map` (main.py lines 105–113): for every
`(package, dependencies)` entry and every dependency name in it, record
`package` as a dependant of that name. Note the Python code adds an entry
for *every* dependency name, whether or not it is a key of the input map. -/
def build_inverse_dependency_map (dependency_map : List (String × List String)) :
    List (String × List String) :=
  dependency_map.foldl
    (fun m entry => entry.2.foldl (fun m' dep => addDependant m' dep entry.1) m)
    []

/-- Node set of `nx.DiGraph(inverse_dependency_map)`: all keys plus all names
appearing in adjacency lists, deduplicated. -/
def graphNodes (m : List (String × List String)) : List String :=
  (m.foldl (fun acc kv => acc ++ kv.1 :: kv.2) []).dedup

/-- Adjacency function of `nx.DiGraph(inverse_dependency_map)`: the successors
of `x` are the entries of its value list (empty for non-keys). -/
def adjOf (m : List (String × List String)) : String → List String :=
  fun x => (m.lookup x).getD []

/-- One breadth-first expansion step: the current set together with every
successor of its members, deduplicated. -/
def expand (adj : String → List String) (s : List String) : List String :=
  (s ++ s.flatMap adj).dedup

/-- All nodes reachable from `x` (including `x` itself) within `n` expansion
steps; with `n` at least the node count this is the full reachable set. -/
def reachList (adj : String → List String) (n : Nat) (x : String) : List String :=
  (expand adj)^[n] [x]

/-- Embeds `nx.descendants(graph, package)`: every node reachable from the
source, the source itself excluded (networkx returns the reachable set minus
the source, even when the source lies on a cycle through itself). -/
def descendants (adj : String → List String) (n : Nat) (x : String) : List String :=
  (reachList adj n x).filter (fun y => y ≠ x)

/-- Embeds `build_transitive_dependant_map` (main.py lines 121–131): build the
directed graph of the inverse dependency map and record, for each *key* of
that map, its `nx.descendants` set. Packages that are not keys of the
inverse map get no entry. -/
def build_transitive_dependant_map (inverse_dependency_map : List (String × List String)) :
    List (String × List String) :=
  inverse_dependency_map.map
    (fun kv =>
      (kv.1,
       descendants (adjOf inverse_dependency_map)
         (graphNodes inverse_dependency_map).length kv.1))

/-- Embeds `count_all_dependants` (main.py lines 116–119):
`{k: len(v) for k, v in transitive_dependant_map.items()}`. -/
def count_all_dependants (transitive_dependant_map : List (String × List String)) :
    List (String × Nat) :=
  transitive_dependant_map.map (fun kv => (kv.1, kv.2.length))

/-- Comparison used to model `sorted(pairs, key=lambda x: x[1], reverse=True)`:
`a` may precede `b` when `a`'s count is at least `b`'s. Python's sort is
stable, and a stable sort with this total preorder is exactly
`List.insertionSort` with this relation. -/
def countGE (a b : String × Nat) : Prop := b.2 ≤ a.2

instance : DecidableRel countGE := fun a b => inferInstanceAs (Decidable (b.2 ≤ a.2))

instance : IsTotal (String × Nat) countGE := ⟨fun a b => le_total b.2 a.2⟩

instance : IsTrans (String × Nat) countGE := ⟨fun _ _ _ h₁ h₂ => le_trans h₂ h₁⟩

/-- Embeds the `--count-transitive` branch of `main` (main.py lines 246–256):
count the dependants of every key and sort the `(name, count)` pairs by
count descending; CPython's stable sort keeps tied entries in their input
order. -/
def most_transitive_depended_upon (transitive_dependant_map : List (String × List String)) :
    List (String × Nat) :=
  List.insertionSort countGE (count_all_dependants transitive_dependant_map)

/-- Embeds the truncation `data[:args.limit]` of `build-markdown.py` (main,
lines 37–44): keep the first `limit` entries of the ranked list. -/
def limitRows (limit : Nat) (data : List (String × Nat)) : List (String × Nat) :=
  data.take limit

/-- The whole ranked pipeline, from a dependency map to the sorted
`(name, transitive dependant count)` list. -/
def ranked_output (dependency_map : List (String × List String)) : List (String × Nat) :=
  most_transitive_depended_upon
    (build_transitive_dependant_map (build_inverse_dependency_map dependency_map))

/-- Embeds the mutable state of `NpmRegistry`
(download-package-index-chunked.py lines 38–54): the url,
`last_downloaded_package` and `include_docs` fields play no part in the
backon/backoff arithmetic and are omitted. -/
structure NpmRegistry where
  target_packages_per_request : Nat
  current_packages_per_request : Nat
deriving Repr, DecidableEq

/-- Embeds `NpmRegistry.__init__`: both the target and the current page size
start at `packages_per_request`. -/
def NpmRegistry.init (packages_per_request : Nat) : NpmRegistry :=
  { target_packages_per_request := packages_per_request
    current_packages_per_request := packages_per_request }

/-- Embeds `NpmRegistry.backon`. The Python code grows the page size to
`math.ceil(self.current_packages_per_request * 1.2)` — a floating-point
expression — capped at the target; the growth function is taken as a
parameter `grow`, since every property proved below holds for any growth
value thanks to the `min` cap. -/
def NpmRegistry.backon (grow : Nat → Nat) (r : NpmRegistry) : NpmRegistry :=
  if r.current_packages_per_request < r.target_packages_per_request then
    { r with current_packages_per_request := min r.target_packages_per_request (grow r.current_packages_per_request) }
  else r

/-- Embeds `NpmRegistry.backoff`: when the current page size is at least a
tenth of the target (integer division), halve it but never below 3. -/
def NpmRegistry.backoff (r : NpmRegistry) : NpmRegistry :=
  if r.target_packages_per_request / 10 ≤ r.current_packages_per_request then
    { r with current_packages_per_request := max 3 (r.current_packages_per_request / 2) }
  else r

/-! ### Concrete inputs used by the scenario claims -/

/-- Scenario 1 of the spec: dependency edges A→B, B→C, C→A, D→A, given as the
`package → direct dependencies` mapping the pipeline consumes. -/
def dmScenario1 : List (String × List String) :=
  [("A", ["B"]), ("B", ["C"]), ("C", ["A"]), ("D", ["A"])]

/-- The inverse (dependant) map the code builds for Scenario 1. -/
def invScenario1 : List (String × List String) :=
  build_inverse_dependency_map dmScenario1

/-- Modelled from the spec (§3 SCC): two packages lie in the same strongly
connected component of the dependant graph when each reaches the other. -/
def sccMates (adj : String → List String) (n : Nat) (x y : String) : Bool :=
  (reachList adj n x).contains y && (reachList adj n y).contains x

/-- Modelled from the spec (§3 DependantCount): the cardinality of the
expanded reachability set of the package's SCC minus the package's own SCC
members. Since every member of the SCC has the same reachable set, this is
the set of packages reachable from `x` in the dependant graph that are not
SCC-mates of `x`. -/
def spec_dependant_count (adj : String → List String) (n : Nat) (x : String) : Nat :=
  ((reachList adj n x).filter (fun y => !(sccMates adj n x y))).length

/-! ### Association-list lemmas -/

/-- A successful lookup exposes an entry of the list with the looked-up key. -/
theorem mem_of_lookup_eq_some {α : Type} {m : List (String × α)} {x : String} {v : α}
    (h : m.lookup x = some v) : (x, v) ∈ m := by
  induction m with
  | nil => simp [List.lookup] at h
  | cons kv rest ih =>
    rw [List.lookup] at h
    by_cases hk : x = kv.1
    · rw [show (x == kv.1) = true from beq_iff_eq.mpr hk] at h
      simp at h
      subst hk
      simp [← h]
    · rw [show (x == kv.1) = false from beq_eq_false_iff_ne.mpr hk] at h
      exact List.mem_cons_of_mem _ (ih h)

/-- Lookup fails exactly on names that are not keys. -/
theorem lookup_eq_none_of_not_mem_keys {α : Type} {m : List (String × α)} {x : String}
    (h : x ∉ m.map Prod.fst) : m.lookup x = none := by
  induction m with
  | nil => rfl
  | cons kv rest ih =>
    simp only [List.map_cons, List.mem_cons] at h
    push_neg at h
    rw [List.lookup, show (x == kv.1) = false from beq_eq_false_iff_ne.mpr h.1]
    exact ih h.2

/-- Lookup in a map whose entries are `(k, g k)` returns `g` of the key. -/
theorem lookup_map_key {α : Type} {g : String → α} {m : List (String × List String)}
    {x : String} {v : α}
    (h : (m.map (fun kv => (kv.1, g kv.1))).lookup x = some v) : v = g x := by
  induction m with
  | nil => simp [List.lookup] at h
  | cons kv rest ih =>
    rw [List.map_cons, List.lookup] at h
    by_cases hk : x = kv.1
    · rw [show (x == kv.1) = true from beq_iff_eq.mpr hk] at h
      simp at h
      rw [← h, hk]
    · rw [show (x == kv.1) = false from beq_eq_false_iff_ne.mpr hk] at h
      exact ih h

/-- Mapping the values of an association list maps the result of lookups. -/
theorem lookup_map_value {α β : Type} (f : α → β) {m : List (String × α)} {x : String}
    {v : α} (h : m.lookup x = some v) :
    (m.map (fun kv => (kv.1, f kv.2))).lookup x = some (f v) := by
  induction m with
  | nil => simp [List.lookup] at h
  | cons kv rest ih =>
    rw [List.lookup] at h
    rw [List.map_cons, List.lookup]
    by_cases hk : x = kv.1
    · rw [show (x == kv.1) = true from beq_iff_eq.mpr hk] at h ⊢
      simp at h ⊢
      exact congrArg f h
    · rw [show (x == kv.1) = false from beq_eq_false_iff_ne.mpr hk] at h ⊢
      exact ih h

/-- Keys are unchanged when the values of an association list are mapped. -/
theorem keys_map_value {α β : Type} (f : String × α → β) (m : List (String × α)) :
    (m.map (fun kv => (kv.1, f kv))).map Prod.fst = m.map Prod.fst := by
  induction m with
  | nil => rfl
  | cons kv rest ih => simp [ih]

/-! ### Keys of the inverse dependency map -/

/-- `addDependant` puts the dependency name among the keys. -/
theorem mem_keys_addDependant_self (m : List (String × List String)) (dep pkg : String) :
    dep ∈ (addDependant m dep pkg).map Prod.fst := by
  induction m with
  | nil => simp [addDependant]
  | cons kv rest ih =>
    obtain ⟨k, v⟩ := kv
    rw [addDependant]
    by_cases hk : k = dep
    · simp [hk]
    · simp only [if_neg hk, List.map_cons, List.mem_cons]
      exact Or.inr ih

/-- `addDependant` keeps all existing keys. -/
theorem mem_keys_addDependant_of_mem {m : List (String × List String)} {x : String}
    (dep pkg : String) (h : x ∈ m.map Prod.fst) :
    x ∈ (addDependant m dep pkg).map Prod.fst := by
  induction m with
  | nil => simp at h
  | cons kv rest ih =>
    obtain ⟨k, v⟩ := kv
    simp only [List.map_cons, List.mem_cons] at h
    rw [addDependant]
    by_cases hk : k = dep
    · rcases h with h | h
      · simp only [if_pos hk, List.map_cons, List.mem_cons]
        exact Or.inl h
      · simp only [if_pos hk, List.map_cons, List.mem_cons]
        exact Or.inr h
    · rcases h with h | h
      · simp [hk, h]
      · simp only [if_neg hk, List.map_cons, List.mem_cons]
        exact Or.inr (ih h)

/-- Every key of `addDependant m dep pkg` is `dep` or a key of `m`. -/
theorem keys_addDependant_sub {m : List (String × List String)} {x dep pkg : String}
    (h : x ∈ (addDependant m dep pkg).map Prod.fst) :
    x = dep ∨ x ∈ m.map Prod.fst := by
  induction m with
  | nil => simpa [addDependant] using h
  | cons kv rest ih =>
    obtain ⟨k, v⟩ := kv
    rw [addDependant] at h
    by_cases hk : k = dep
    · simp only [if_pos hk, List.map_cons, List.mem_cons] at h
      rcases h with h | h
      · exact Or.inl (h.trans hk)
      · exact Or.inr (by simp [h])
    · simp only [if_neg hk, List.map_cons, List.mem_cons] at h
      rcases h with h | h
      · exact Or.inr (by simp [h])
      · rcases ih h with h' | h'
        · exact Or.inl h'
        · exact Or.inr (by simp [h'])

/-- The inner loop over one entry's dependency list keeps existing keys. -/
theorem keys_innerFold_mono (deps : List String) (pkg : String) :
    ∀ (m : List (String × List String)) (x : String), x ∈ m.map Prod.fst →
      x ∈ (deps.foldl (fun m' dep => addDependant m' dep pkg) m).map Prod.fst := by
  induction deps with
  | nil => intro m x h; simpa using h
  | cons d ds ih =>
    intro m x h
    exact ih _ x (mem_keys_addDependant_of_mem d pkg h)

/-- The inner loop over one entry's dependency list adds each dependency name
as a key. -/
theorem keys_innerFold_self (deps : List String) (pkg : String) :
    ∀ (m : List (String × List String)) (d : String), d ∈ deps →
      d ∈ (deps.foldl (fun m' dep => addDependant m' dep pkg) m).map Prod.fst := by
  induction deps with
  | nil => intro m d h; simp at h
  | cons d₀ ds ih =>
    intro m d h
    rcases List.mem_cons.mp h with h | h
    · subst h
      exact keys_innerFold_mono ds pkg _ d (mem_keys_addDependant_self m d pkg)
    · exact ih _ d h

/-- Every key produced by the inner loop is a dependency name or came from
the accumulator. -/
theorem keys_innerFold_sub (deps : List String) (pkg : String) :
    ∀ (m : List (String × List String)) (x : String),
      x ∈ (deps.foldl (fun m' dep => addDependant m' dep pkg) m).map Prod.fst →
      x ∈ deps ∨ x ∈ m.map Prod.fst := by
  induction deps with
  | nil => intro m x h; simpa using h
  | cons d₀ ds ih =>
    intro m x h
    rcases ih _ x h with h' | h'
    · exact Or.inl (List.mem_cons_of_mem _ h')
    · rcases keys_addDependant_sub h' with h'' | h''
      · exact Or.inl (h'' ▸ List.mem_cons_self _ _)
      · exact Or.inr h''

/-- The outer loop of `build_inverse_dependency_map` keeps existing keys. -/
theorem keys_outerFold_mono (dm : List (String × List String)) :
    ∀ (m : List (String × List String)) (x : String), x ∈ m.map Prod.fst →
      x ∈ (dm.foldl
            (fun m entry => entry.2.foldl (fun m' dep => addDependant m' dep entry.1) m)
            m).map Prod.fst := by
  induction dm with
  | nil => intro m x h; simpa using h
  | cons e es ih =>
    intro m x h
    exact ih _ x (keys_innerFold_mono e.2 e.1 m x h)

/-- Amended form of the unresolved-reference behavior: every dependency name
occurring in the input — known key or not — ends up as a key of the inverse
dependency map. -/
theorem mem_keys_build_inverse {dm : List (String × List String)} {p d : String}
    {deps : List String} (h₁ : (p, deps) ∈ dm) (h₂ : d ∈ deps) :
    d ∈ (build_inverse_dependency_map dm).map Prod.fst := by
  rw [build_inverse_dependency_map]
  have general :
      ∀ (l : List (String × List String)) (m : List (String × List String)),
        (p, deps) ∈ l →
        d ∈ (l.foldl
              (fun m entry => entry.2.foldl (fun m' dep => addDependant m' dep entry.1) m)
              m).map Prod.fst := by
    intro l
    induction l with
    | nil => intro m h; simp at h
    | cons e es ih =>
      intro m h
      rcases List.mem_cons.mp h with h | h
      · subst h
        exact keys_outerFold_mono es _ d (keys_innerFold_self deps p m d h₂)
      · exact ih _ h
  exact general dm [] h₁

/-- Every key of the inverse dependency map occurs as a dependency name of
some entry of the input. -/
theorem keys_build_inverse_sub {dm : List (String × List String)} {x : String}
    (h : x ∈ (build_inverse_dependency_map dm).map Prod.fst) :
    ∃ e ∈ dm, x ∈ e.2 := by
  rw [build_inverse_dependency_map] at h
  have general :
      ∀ (l : List (String × List String)) (m : List (String × List String)),
        x ∈ (l.foldl
              (fun m entry => entry.2.foldl (fun m' dep => addDependant m' dep entry.1) m)
              m).map Prod.fst →
        (∃ e ∈ l, x ∈ e.2) ∨ x ∈ m.map Prod.fst := by
    intro l
    induction l with
    | nil => intro m h'; exact Or.inr (by simpa using h')
    | cons e es ih =>
      intro m h'
      rcases ih _ h' with h'' | h''
      · obtain ⟨e', he', hx⟩ := h''
        exact Or.inl ⟨e', List.mem_cons_of_mem _ he', hx⟩
      · rcases keys_innerFold_sub e.2 e.1 m x h'' with h₃ | h₃
        · exact Or.inl ⟨e, List.mem_cons_self _ _, h₃⟩
        · exact Or.inr h₃
  rcases general dm [] h with h' | h'
  · exact h'
  · simp at h'

/-! ### Claim C1 -/

/-- C1 counterexample: on the Scenario-1 cycle the code counts A's transitive
dependants as 3 (including B and C, which lie in A's own strongly connected
component), while the claimed quantity — the expanded reachability set of
A's SCC minus A's own SCC members — has cardinality 1. B is an SCC-mate of A
and nevertheless appears in A's transitive dependant set. -/
theorem c1_counterexample :
    (count_all_dependants (build_transitive_dependant_map invScenario1)).lookup "A" = some 3 ∧
    spec_dependant_count (adjOf invScenario1) (graphNodes invScenario1).length "A" = 1 ∧
    sccMates (adjOf invScenario1) (graphNodes invScenario1).length "A" "B" = true ∧
    "B" ∈ (((build_transitive_dependant_map invScenario1).lookup "A").getD []) ∧
    (3 : Nat) ≠ 1 := by decide

/-- C1 amended: `DependantCount(x)` equals the cardinality of the set of
packages reachable from `x` in the dependant graph with `x` itself excluded;
the package is never counted as its own dependant, but other members of its
SCC *are* counted. -/
theorem c1_amended (inv : List (String × List String)) (x : String) (l : List String)
    (h : (build_transitive_dependant_map inv).lookup x = some l) :
    x ∉ l ∧
      (count_all_dependants (build_transitive_dependant_map inv)).lookup x = some l.length := by
  constructor
  · have hl :
        l = descendants (adjOf inv) (graphNodes inv).length x :=
      lookup_map_key (g := fun k => descendants (adjOf inv) (graphNodes inv).length k)
        (by simpa [build_transitive_dependant_map] using h)
    subst hl
    intro hx
    have := List.of_mem_filter hx
    simp at this
  · exact lookup_map_value List.length h

/-- C1 witness: the amended statement evaluated on Scenario 1 at package A. -/
theorem c1_witness :
    "A" ∉ ["B", "C", "D"] ∧
      (count_all_dependants (build_transitive_dependant_map invScenario1)).lookup "A" =
        some (["B", "C", "D"] : List String).length :=
  c1_amended invScenario1 "A" ["B", "C", "D"] (by decide)

/-! ### Claim C2 -/

/-- C2 counterexample: for the Scenario-1 input the computed transitive
dependant map has no entry for D at all — it does not assign D the empty
set, because D never occurs as a dependency and hence is not a key of the
inverse dependency map the comprehension iterates over. -/
theorem c2_counterexample :
    (build_transitive_dependant_map invScenario1).lookup "D" = none := by decide

/-- C2 amended: for the input with edges A→B, B→C, C→A, D→A the computed
transitive dependant map assigns A the set `{B, C, D}`, B the set
`{A, C, D}`, C the set `{A, B, D}`, and contains no entry for D. -/
theorem c2_amended :
    (((build_transitive_dependant_map invScenario1).lookup "A").getD []).toFinset =
        {"B", "C", "D"} ∧
    (((build_transitive_dependant_map invScenario1).lookup "B").getD []).toFinset =
        {"A", "C", "D"} ∧
    (((build_transitive_dependant_map invScenario1).lookup "C").getD []).toFinset =
        {"A", "B", "D"} ∧
    (build_transitive_dependant_map invScenario1).lookup "D" = none := by decide

/-! ### Claim C3 -/

/-- C3 counterexample: package E lists the dependency "ghost", which is not a
key of the input, yet "ghost" turns up as a key — a fabricated node — of the
inverse dependency map (the code has no `unresolved_edge_count` and drops
nothing). -/
theorem c3_counterexample :
    "ghost" ∈ (build_inverse_dependency_map [("E", ["ghost"])]).map Prod.fst ∧
    (build_inverse_dependency_map [("E", ["ghost"])]).lookup "ghost" = some ["E"] := by decide

/-- C3 amended: every dependency name occurring anywhere in the input —
whether or not it is a known package key — becomes a key of the inverse
dependency map; unknown names are fabricated as nodes rather than dropped,
and no unresolved-edge diagnostic exists. -/
theorem c3_amended (dm : List (String × List String)) (p d : String) (deps : List String)
    (h₁ : (p, deps) ∈ dm) (h₂ : d ∈ deps) :
    d ∈ (build_inverse_dependency_map dm).map Prod.fst :=
  mem_keys_build_inverse h₁ h₂

/-- C3 witness: the amended statement evaluated on the ghost input. -/
theorem c3_witness :
    "ghost" ∈ (build_inverse_dependency_map [("E", ["ghost"])]).map Prod.fst :=
  c3_amended [("E", ["ghost"])] "E" "ghost" ["ghost"] (by decide) (by decide)

/-! ### Claim C5 -/

/-- C5 counterexample: the isolated package X (no dependencies, no
dependants) is entirely absent from the transitive dependant map and from
the count map — it is not reported with count 0 as claimed. -/
theorem c5_counterexample :
    (build_transitive_dependant_map (build_inverse_dependency_map [("X", [])])).lookup "X" =
        none ∧
    (count_all_dependants
        (build_transitive_dependant_map (build_inverse_dependency_map [("X", [])]))).lookup
        "X" = none := by decide

/-- C5 amended: a package that no other package lists as a dependency — in
particular an isolated one — has no entry at all in the transitive dependant
map or in the count map; it is dropped from the output rather than reported
with count 0. -/
theorem c5_amended (dm : List (String × List String)) (x : String)
    (h : ∀ e ∈ dm, x ∉ e.2) :
    (build_transitive_dependant_map (build_inverse_dependency_map dm)).lookup x = none ∧
    (count_all_dependants
        (build_transitive_dependant_map (build_inverse_dependency_map dm))).lookup x =
      none := by
  have hkeys : x ∉ (build_inverse_dependency_map dm).map Prod.fst := by
    intro hx
    obtain ⟨e, he, hxe⟩ := keys_build_inverse_sub hx
    exact h e he hxe
  have htm : x ∉ (build_transitive_dependant_map (build_inverse_dependency_map dm)).map
      Prod.fst := by
    rw [build_transitive_dependant_map]
    rw [keys_map_value
      (fun kv =>
        descendants (adjOf (build_inverse_dependency_map dm))
          (graphNodes (build_inverse_dependency_map dm)).length kv.1)]
    exact hkeys
  have hcm : x ∉ (count_all_dependants
      (build_transitive_dependant_map (build_inverse_dependency_map dm))).map Prod.fst := by
    rw [count_all_dependants]
    rw [keys_map_value (fun kv : String × List String => kv.2.length)]
    exact htm
  exact ⟨lookup_eq_none_of_not_mem_keys htm, lookup_eq_none_of_not_mem_keys hcm⟩

/-- C5 witness: the amended statement evaluated on the isolated package X. -/
theorem c5_witness :
    (build_transitive_dependant_map (build_inverse_dependency_map [("X", [])])).lookup "X" =
        none ∧
    (count_all_dependants
        (build_transitive_dependant_map (build_inverse_dependency_map [("X", [])]))).lookup
        "X" = none :=
  c5_amended [("X", [])] "X" (by decide)

/-! ### Claim C4 -/

/-- Inserting into a list with `orderedInsert` never passes over an element of
equal count, so the sublist of entries with any fixed count is exactly the
one of the unsorted list: the stability of Python's sort. -/
theorem filter_orderedInsert_count (c : Nat) (a : String × Nat) (l : List (String × Nat)) :
    (List.orderedInsert countGE a l).filter (fun x => x.2 == c) =
      ((a :: l).filter (fun x => x.2 == c)) := by
  induction l with
  | nil => simp [List.orderedInsert]
  | cons b bs ih =>
    rw [List.orderedInsert]
    by_cases hab : countGE a b
    · rw [if_pos hab]
    · rw [if_neg hab]
      have hlt : a.2 < b.2 := Nat.lt_of_not_le hab
      by_cases hbc : (b.2 == c) = true
      · have hbc' : b.2 = c := beq_iff_eq.mp hbc
        have hac : (a.2 == c) = false := beq_eq_false_iff_ne.mpr (by omega)
        simp [List.filter_cons, ih, hbc, hac]
      · have hbc' : (b.2 == c) = false := Bool.eq_false_iff.mpr hbc
        simp [List.filter_cons, ih, hbc']

/-- The stable-sort characterization: sorting preserves the relative order of
entries with equal counts. -/
theorem filter_insertionSort_count (c : Nat) (l : List (String × Nat)) :
    (List.insertionSort countGE l).filter (fun x => x.2 == c) =
      l.filter (fun x => x.2 == c) := by
  induction l with
  | nil => rfl
  | cons a l ih =>
    rw [List.insertionSort, filter_orderedInsert_count]
    simp only [List.filter_cons]
    rw [ih]

/-- C4 counterexample: for the input with entries b ↦ {z} and a ↦ {z} (both
counts 1), the ranked output lists b before a — ties are *not* broken by
package name ascending, although "a" < "b". -/
theorem c4_counterexample :
    most_transitive_depended_upon [("b", ["z"]), ("a", ["z"])] = [("b", 1), ("a", 1)] ∧
    ("a" : String) < "b" := by
  refine ⟨by decide, ?_⟩
  rw [String.lt_iff_toList_lt]
  decide

/-- C4 amended: the ranked output is totally ordered by dependant count
descending, is a permutation of the per-package counts, and ties are broken
by the position of the package in the input mapping (Python's stable sort),
not by name; truncating to the top N yields exactly the first N entries of
that ordering. -/
theorem c4_amended (tm : List (String × List String)) :
    List.Sorted countGE (most_transitive_depended_upon tm) ∧
    (most_transitive_depended_upon tm).Perm (count_all_dependants tm) ∧
    (∀ c, (most_transitive_depended_upon tm).filter (fun a => a.2 == c) =
      (count_all_dependants tm).filter (fun a => a.2 == c)) ∧
    (∀ n, limitRows n (most_transitive_depended_upon tm) =
      (most_transitive_depended_upon tm).take n) :=
  ⟨List.sorted_insertionSort countGE _, List.perm_insertionSort countGE _,
   fun c => filter_insertionSort_count c _, fun _ => rfl⟩

/-- C4 witness: the amended statement evaluated on a concrete two-entry
input. -/
theorem c4_witness :
    List.Sorted countGE (most_transitive_depended_upon [("b", ["z"]), ("a", ["z", "w"])]) ∧
    limitRows 1 (most_transitive_depended_upon [("b", ["z"]), ("a", ["z", "w"])]) =
      (most_transitive_depended_upon [("b", ["z"]), ("a", ["z", "w"])]).take 1 :=
  ⟨(c4_amended [("b", ["z"]), ("a", ["z", "w"])]).1,
   (c4_amended [("b", ["z"]), ("a", ["z", "w"])]).2.2.2 1⟩

/-! ### Claim C7 -/

/-- C7: the pipeline from the input mapping to the ranked output is a
deterministic function of the input alone — identical inputs give identical
ranked output — and moreover the ranking does not depend on the
hash-dependent iteration order of the dependant sets: permuting any of the
per-package dependant lists leaves the ranked output byte-identical. -/
theorem c7_deterministic :
    (∀ dm₁ dm₂ : List (String × List String), dm₁ = dm₂ →
      ranked_output dm₁ = ranked_output dm₂) ∧
    (∀ tm₁ tm₂ : List (String × List String),
      List.Forall₂ (fun a b => a.1 = b.1 ∧ a.2.Perm b.2) tm₁ tm₂ →
      most_transitive_depended_upon tm₁ = most_transitive_depended_upon tm₂) := by
  constructor
  · intro dm₁ dm₂ h
    rw [h]
  · intro tm₁ tm₂ h
    have hc : count_all_dependants tm₁ = count_all_dependants tm₂ := by
      induction h with
      | nil => rfl
      | cons h₁ h₂ ih =>
        simp only [count_all_dependants, List.map_cons] at ih ⊢
        rw [ih, h₁.1, h₁.2.length_eq]
    rw [most_transitive_depended_upon, most_transitive_depended_upon, hc]

/-- C7 witness: determinism applied to the Scenario-1 input, and
order-insensitivity applied to two runs whose dependant set for `a` was
enumerated in opposite orders. -/
theorem c7_witness :
    ranked_output dmScenario1 = ranked_output dmScenario1 ∧
    most_transitive_depended_upon [("a", ["x", "y"])] =
      most_transitive_depended_upon [("a", ["y", "x"])] :=
  ⟨c7_deterministic.1 dmScenario1 dmScenario1 rfl,
   c7_deterministic.2 [("a", ["x", "y"])] [("a", ["y", "x"])]
     (List.Forall₂.cons ⟨rfl, by decide⟩ List.Forall₂.nil)⟩

/-! ### Claim C8 -/

/-- The dependant sets stored by `addDependant` stay duplicate-free
(Python's values are `set`s). -/
theorem valuesNodup_addDependant {m : List (String × List String)} (dep pkg : String)
    (h : ∀ kv ∈ m, kv.2.Nodup) : ∀ kv ∈ addDependant m dep pkg, kv.2.Nodup := by
  induction m with
  | nil =>
    intro kv hkv
    simp [addDependant] at hkv
    simp [hkv]
  | cons e rest ih =>
    obtain ⟨k, v⟩ := e
    have hv : v.Nodup := h (k, v) (List.mem_cons_self _ _)
    intro kv hkv
    rw [addDependant] at hkv
    by_cases hk : k = dep
    · rw [if_pos hk] at hkv
      rcases List.mem_cons.mp hkv with h' | h'
      · subst h'
        by_cases hp : pkg ∈ v
        · simpa [hp] using hv
        · simp only [hp, if_neg]
          simp [List.nodup_append, hv, hp]
      · exact h kv (List.mem_cons_of_mem _ h')
    · rw [if_neg hk] at hkv
      rcases List.mem_cons.mp hkv with h' | h'
      · subst h'
        exact hv
      · exact ih (fun kv' hkv' => h kv' (List.mem_cons_of_mem _ hkv')) kv h'

/-- The inner fold of `build_inverse_dependency_map` keeps all dependant sets
duplicate-free. -/
theorem valuesNodup_innerFold (deps : List String) (pkg : String) :
    ∀ (m : List (String × List String)), (∀ kv ∈ m, kv.2.Nodup) →
      ∀ kv ∈ deps.foldl (fun m' dep => addDependant m' dep pkg) m, kv.2.Nodup := by
  induction deps with
  | nil => intro m h; simpa using h
  | cons d ds ih =>
    intro m h
    exact ih _ (valuesNodup_addDependant d pkg h)

/-- Every dependant set in the inverse dependency map is duplicate-free. -/
theorem valuesNodup_build_inverse {dm : List (String × List String)} {x : String}
    {l : List String} (h : (build_inverse_dependency_map dm).lookup x = some l) :
    l.Nodup := by
  have general :
      ∀ (dml : List (String × List String)) (m : List (String × List String)),
        (∀ kv ∈ m, kv.2.Nodup) →
        ∀ kv ∈ dml.foldl
            (fun m entry => entry.2.foldl (fun m' dep => addDependant m' dep entry.1) m)
            m, kv.2.Nodup := by
    intro dml
    induction dml with
    | nil => intro m h'; simpa using h'
    | cons e es ih =>
      intro m h'
      exact ih _ (valuesNodup_innerFold e.2 e.1 m h')
  have := general dm [] (by simp) (x, l)
      (mem_of_lookup_eq_some (by simpa [build_inverse_dependency_map] using h))
  exact this

/-- Membership survives one expansion step. -/
theorem mem_expand_of_mem {adj : String → List String} {s : List String} {a : String}
    (h : a ∈ s) : a ∈ expand adj s := by
  rw [expand]
  exact List.mem_dedup.mpr (List.mem_append.mpr (Or.inl h))

/-- Membership survives any number of expansion steps. -/
theorem mem_iterate_expand {adj : String → List String} {a : String} :
    ∀ (m : Nat) (s : List String), a ∈ s → a ∈ (expand adj)^[m] s := by
  intro m
  induction m with
  | zero => intro s h; simpa using h
  | succ m ih =>
    intro s h
    rw [Function.iterate_succ_apply]
    exact ih _ (mem_expand_of_mem h)

/-- A direct successor is reached within any positive number of steps. -/
theorem mem_reach_of_adj {adj : String → List String} {x d : String} {n : Nat}
    (hd : d ∈ adj x) (hn : 1 ≤ n) : d ∈ reachList adj n x := by
  obtain ⟨m, rfl⟩ : ∃ m, n = m + 1 := ⟨n - 1, by omega⟩
  rw [reachList, Function.iterate_succ_apply]
  apply mem_iterate_expand
  rw [expand]
  refine List.mem_dedup.mpr (List.mem_append.mpr (Or.inr ?_))
  simpa using hd

/-- Every key of the inverse map is a node of the dependant graph. -/
theorem mem_graphNodes_of_key {m : List (String × List String)} {x : String}
    (h : x ∈ m.map Prod.fst) : x ∈ graphNodes m := by
  rw [graphNodes]
  apply List.mem_dedup.mpr
  have general :
      ∀ (l : List (String × List String)) (acc : List String),
        x ∈ acc ∨ x ∈ l.map Prod.fst →
        x ∈ l.foldl (fun acc kv => acc ++ kv.1 :: kv.2) acc := by
    intro l
    induction l with
    | nil => intro acc h'; simpa using h'
    | cons kv rest ih =>
      intro acc h'
      apply ih
      rcases h' with h' | h'
      · exact Or.inl (List.mem_append.mpr (Or.inl h'))
      · rw [List.map_cons] at h'
        rcases List.mem_cons.mp h' with h'' | h''
        · exact Or.inl (List.mem_append.mpr (Or.inr (by simp [h''])))
        · exact Or.inr h''
  exact general m [] (Or.inr h)

/-- Looking up a key in a map whose entries are `(k, g k)` returns `g` of the
key whenever the key is present. -/
theorem lookup_map_key_of_mem {α : Type} {g : String → α} {m : List (String × List String)}
    {x : String} (h : x ∈ m.map Prod.fst) :
    (m.map (fun kv => (kv.1, g kv.1))).lookup x = some (g x) := by
  induction m with
  | nil => simp at h
  | cons kv rest ih =>
    rw [List.map_cons, List.lookup]
    by_cases hk : x = kv.1
    · rw [show (x == kv.1) = true from beq_iff_eq.mpr hk]
      rw [hk]
    · rw [show (x == kv.1) = false from beq_eq_false_iff_ne.mpr hk]
      apply ih
      rw [List.map_cons] at h
      rcases List.mem_cons.mp h with h' | h'
      · exact absurd h' hk
      · exact h'

/-- C8 counterexample: the package A that depends on itself has one direct
dependant (A itself) but transitive dependant count 0, because
`nx.descendants` excludes the source even over a self-loop — the transitive
count is *smaller* than the direct count. -/
theorem c8_counterexample :
    (build_inverse_dependency_map [("A", ["A"])]).lookup "A" = some ["A"] ∧
    (count_all_dependants (build_transitive_dependant_map
        (build_inverse_dependency_map [("A", ["A"])]))).lookup "A" = some 0 ∧
    ¬((["A"] : List String).length ≤ 0) := by decide

/-- C8 amended: the transitive dependant count of a package dominates the
number of its direct dependants *other than itself*: the transitive set is a
superset of the direct set with the package itself removed (a self-dependency
is dropped by `nx.descendants`). -/
theorem c8_amended (dm : List (String × List String)) (x : String) (l : List String) (c : Nat)
    (h₁ : (build_inverse_dependency_map dm).lookup x = some l)
    (h₂ : (count_all_dependants (build_transitive_dependant_map
        (build_inverse_dependency_map dm))).lookup x = some c) :
    (l.filter (fun y => y ≠ x)).length ≤ c := by
  have hkey : x ∈ (build_inverse_dependency_map dm).map Prod.fst :=
    List.mem_map_of_mem Prod.fst (mem_of_lookup_eq_some h₁)
  have htm : (build_transitive_dependant_map (build_inverse_dependency_map dm)).lookup x =
      some (descendants (adjOf (build_inverse_dependency_map dm))
        (graphNodes (build_inverse_dependency_map dm)).length x) := by
    rw [build_transitive_dependant_map]
    exact lookup_map_key_of_mem hkey
  have hcnt := lookup_map_value List.length htm
  rw [count_all_dependants] at h₂
  have hc : c = (descendants (adjOf (build_inverse_dependency_map dm))
      (graphNodes (build_inverse_dependency_map dm)).length x).length := by
    have := hcnt.symm.trans h₂
    simpa using this.symm
  have hadj : adjOf (build_inverse_dependency_map dm) x = l := by
    rw [adjOf, h₁]
    rfl
  have hn : 1 ≤ (graphNodes (build_inverse_dependency_map dm)).length :=
    List.length_pos.mpr (List.ne_nil_of_mem (mem_graphNodes_of_key hkey))
  have hsub : ∀ d ∈ l.filter (fun y => y ≠ x),
      d ∈ descendants (adjOf (build_inverse_dependency_map dm))
        (graphNodes (build_inverse_dependency_map dm)).length x := by
    intro d hd
    obtain ⟨hdl, hdx⟩ := List.mem_filter.mp hd
    rw [descendants]
    apply List.mem_filter.mpr
    refine ⟨?_, hdx⟩
    exact mem_reach_of_adj (by rw [hadj]; exact hdl) hn
  have hnodup : (l.filter (fun y => y ≠ x)).Nodup :=
    (valuesNodup_build_inverse h₁).filter _
  have hlen : (l.filter (fun y => y ≠ x)).length ≤
      (descendants (adjOf (build_inverse_dependency_map dm))
        (graphNodes (build_inverse_dependency_map dm)).length x).length := by
    calc (l.filter (fun y => y ≠ x)).length
        = (l.filter (fun y => y ≠ x)).toFinset.card :=
          (List.toFinset_card_of_nodup hnodup).symm
      _ ≤ (descendants (adjOf (build_inverse_dependency_map dm))
            (graphNodes (build_inverse_dependency_map dm)).length x).toFinset.card := by
          apply Finset.card_le_card
          intro d hd
          exact List.mem_toFinset.mpr (hsub d (List.mem_toFinset.mp hd))
      _ ≤ _ := List.toFinset_card_le _
  omega

/-- C8 witness: the amended statement evaluated on Scenario 1 at package A,
whose direct dependants are C and D and whose transitive count is 3. -/
theorem c8_witness :
    ((["C", "D"] : List String).filter (fun y => y ≠ "A")).length ≤ 3 :=
  c8_amended dmScenario1 "A" ["C", "D"] 3 (by decide) (by decide)

/-! ### Claims C6 and C9 -/

/-- Whenever the versions dict is nonempty, `get_latest_version` returns some
string instead of raising. -/
theorem glv_ok {V : Type} (parse : String → Option V) (pre : V → Option String)
    (gt : V → V → Bool) (toStr : V → String) (doc : CouchDBDoc)
    (he : doc.versions.isEmpty = false) :
    ∃ s, get_latest_version parse pre gt toStr doc = .ok s := by
  rw [get_latest_version, he]
  simp only [Bool.false_eq_true, if_false]
  cases hdt : doc.dist_tags.latest with
  | none => exact ⟨_, rfl⟩
  | some s =>
    by_cases hc : s ≠ "" ∧ (doc.versions.lookup s).isSome
    · exact ⟨s, by simp [hc]⟩
    · exact ⟨semverFallback parse pre gt toStr doc, by simp only [if_neg hc]⟩

/-- A concrete stand-in for `semver.Version.parse`: accepts only "1.0.0"
(in particular it rejects the empty string, as the real parser does). -/
def parseNat : String → Option Nat := fun s => if s = "1.0.0" then some 1 else none

/-- Concrete prerelease accessor: no version is a prerelease. -/
def preNone : Nat → Option String := fun _ => none

/-- Concrete version comparison. -/
def gtNat : Nat → Nat → Bool := fun a b => decide (b < a)

/-- Concrete version rendering. -/
def toStrNat : Nat → String := fun _ => "1.0.0"

/-- A registry row document whose latest version is "1.0.0" with one
dependency "x". -/
def docDup1 : CouchDBDoc := ⟨⟨some "1.0.0"⟩, [("1.0.0", ⟨["x"]⟩)]⟩

/-- A registry row document whose latest version is "1.0.0" with one
dependency "y". -/
def docDup2 : CouchDBDoc := ⟨⟨some "1.0.0"⟩, [("1.0.0", ⟨["y"]⟩)]⟩

/-- C6 counterexample: an input page whose key set contains the name "dup"
twice is processed without any error — `create_dependency_map` happily
returns an output mapping (the later row silently overwriting the earlier),
so no fatal `DataCorruption` abort exists. -/
theorem c6_counterexample :
    ([("dup", docDup1), ("dup", docDup2)].map Prod.fst = ["dup", "dup"]) ∧
    create_dependency_map parseNat preNone gtNat toStrNat
      [("dup", docDup1), ("dup", docDup2)] = .ok [("dup", ["y"])] :=
  ⟨rfl, rfl⟩

/-- C6 amended: duplicate package names in the input are not detected: the
run does not fail, and the resulting mapping binds the duplicated name once,
to the dependencies of its *last* occurrence (dict-assignment overwrite). -/
theorem c6_amended {V : Type} (parse : String → Option V) (pre : V → Option String)
    (gt : V → V → Bool) (toStr : V → String) (name : String) (doc₁ doc₂ : CouchDBDoc)
    (v₁ v₂ : String) (p₁ p₂ : Package)
    (h₁ : get_latest_version parse pre gt toStr doc₁ = .ok v₁)
    (h₂ : doc₁.versions.lookup v₁ = some p₁)
    (h₃ : get_latest_version parse pre gt toStr doc₂ = .ok v₂)
    (h₄ : doc₂.versions.lookup v₂ = some p₂) :
    create_dependency_map parse pre gt toStr [(name, doc₁), (name, doc₂)] =
      .ok [(name, p₂.dependencies)] := by
  simp [create_dependency_map, List.foldlM, h₁, h₂, h₃, h₄, dictSet]
  rfl

/-- C6 witness: the amended statement on a concrete duplicated page. -/
theorem c6_witness :
    create_dependency_map parseNat preNone gtNat toStrNat
      [("n", docDup1), ("n", docDup2)] = .ok [("n", ["y"])] :=
  c6_amended parseNat preNone gtNat toStrNat "n" docDup1 docDup2 "1.0.0" "1.0.0"
    ⟨["x"]⟩ ⟨["y"]⟩ rfl rfl rfl rfl

/-- A document whose dist-tags latest is the *empty string*, which is also a
key of its versions dict. -/
def docEmptyLatest : CouchDBDoc := ⟨⟨some ""⟩, [("", ⟨[]⟩), ("1.0.0", ⟨[]⟩)]⟩

/-- C9 counterexample: for `docEmptyLatest` the dist-tags latest value "" *is*
a key of the versions mapping, yet `get_latest_version` does not return it —
Python's truthiness test `if package_doc.dist_tags.latest and ...` skips the
empty string and the semver fallback returns "1.0.0" instead. -/
theorem c9_counterexample :
    docEmptyLatest.dist_tags.latest = some "" ∧
    (docEmptyLatest.versions.lookup "").isSome = true ∧
    get_latest_version parseNat preNone gtNat toStrNat docEmptyLatest = .ok "1.0.0" ∧
    ("1.0.0" : String) ≠ "" :=
  ⟨rfl, rfl, rfl, by decide⟩

/-- C9 amended: `get_latest_version` raises `ValueError` exactly on documents
with an empty versions dict; any document with at least one version yields a
version string without raising; and the dist-tags latest value is preferred
whenever it is *nonempty* and a key of the versions dict (truthiness, not
mere key membership). This holds for every behavior of the external semver
parser and comparison. -/
theorem c9_amended {V : Type} (parse : String → Option V) (pre : V → Option String)
    (gt : V → V → Bool) (toStr : V → String) (doc : CouchDBDoc) :
    (get_latest_version parse pre gt toStr doc = .error "Package has no versions" ↔
      doc.versions = []) ∧
    (doc.versions ≠ [] → ∃ s, get_latest_version parse pre gt toStr doc = .ok s) ∧
    (∀ s, doc.dist_tags.latest = some s → s ≠ "" → (doc.versions.lookup s).isSome →
      get_latest_version parse pre gt toStr doc = .ok s) := by
  refine ⟨⟨?_, ?_⟩, ?_, ?_⟩
  · intro h
    by_cases he : doc.versions.isEmpty
    · exact List.isEmpty_iff.mp he
    · exfalso
      obtain ⟨s, hs⟩ := glv_ok parse pre gt toStr doc (Bool.eq_false_iff.mpr he)
      rw [hs] at h
      exact Except.noConfusion h
  · intro h
    rw [get_latest_version, if_pos (by simp [h])]
  · intro h
    obtain ⟨s, hs⟩ := glv_ok parse pre gt toStr doc (by simp [List.isEmpty_iff, h])
    exact ⟨s, hs⟩
  · intro s hdt hs hsome
    have he : doc.versions.isEmpty = false := by
      cases hv : doc.versions with
      | nil => rw [hv] at hsome; simp [List.lookup] at hsome
      | cons a l => simp [hv]
    rw [get_latest_version, he]
    simp only [Bool.false_eq_true, if_false]
    rw [hdt]
    simp [hs, hsome]

/-- C9 witness: the amended statement applied to a document whose nonempty
latest tag is a key: the tag is returned. -/
theorem c9_witness :
    get_latest_version parseNat preNone gtNat toStrNat docDup1 = .ok "1.0.0" :=
  (c9_amended parseNat preNone gtNat toStrNat docDup1).2.2 "1.0.0" rfl (by decide) rfl

/-! ### Claim C10 -/

/-- C10: for a registry created with `packages_per_request ≥ 3`, the page
size starts at the target (so `current ≤ target` holds initially), both
`backon` and `backoff` leave the target unchanged and preserve
`current ≤ target` (for any growth function, thanks to the `min` cap and
because `target ≥ 3` dominates the `max 3` floor), and `backoff` never
lowers the page size below 3. -/
theorem c10_invariants (grow : Nat → Nat) (ppr : Nat) (hppr : 3 ≤ ppr) :
    (NpmRegistry.init ppr).current_packages_per_request ≤
        (NpmRegistry.init ppr).target_packages_per_request ∧
    3 ≤ (NpmRegistry.init ppr).target_packages_per_request ∧
    (∀ r : NpmRegistry,
      (NpmRegistry.backon grow r).target_packages_per_request =
        r.target_packages_per_request ∧
      (NpmRegistry.backoff r).target_packages_per_request = r.target_packages_per_request) ∧
    (∀ r : NpmRegistry,
      r.current_packages_per_request ≤ r.target_packages_per_request →
      (NpmRegistry.backon grow r).current_packages_per_request ≤
        (NpmRegistry.backon grow r).target_packages_per_request) ∧
    (∀ r : NpmRegistry,
      r.current_packages_per_request ≤ r.target_packages_per_request →
      3 ≤ r.target_packages_per_request →
      (NpmRegistry.backoff r).current_packages_per_request ≤
        (NpmRegistry.backoff r).target_packages_per_request) ∧
    (∀ r : NpmRegistry,
      min 3 r.current_packages_per_request ≤
        (NpmRegistry.backoff r).current_packages_per_request) := by
  refine ⟨le_refl _, hppr, ?_, ?_, ?_, ?_⟩
  · intro r
    constructor
    · rw [NpmRegistry.backon]
      split_ifs <;> rfl
    · rw [NpmRegistry.backoff]
      split_ifs <;> rfl
  · intro r h
    rw [NpmRegistry.backon]
    split_ifs with hc
    · dsimp only
      omega
    · exact h
  · intro r h h3
    rw [NpmRegistry.backoff]
    split_ifs with hc
    · dsimp only
      omega
    · exact h
  · intro r
    rw [NpmRegistry.backoff]
    split_ifs with hc
    · dsimp only
      omega
    · omega

/-- C10 witness: the invariants instantiated for a registry created with
`packages_per_request = 10` (growth function: exact `ceil(1.2·c)`). -/
theorem c10_witness :
    (NpmRegistry.init 10).current_packages_per_request ≤
        (NpmRegistry.init 10).target_packages_per_request ∧
    (NpmRegistry.backoff ⟨10, 10⟩).current_packages_per_request ≤
        (NpmRegistry.backoff ⟨10, 10⟩).target_packages_per_request ∧
    min 3 (10 : Nat) ≤ (NpmRegistry.backoff ⟨10, 10⟩).current_packages_per_request :=
  ⟨(c10_invariants (fun c => (6 * c + 4) / 5) 10 (by decide)).1,
   (c10_invariants (fun c => (6 * c + 4) / 5) 10 (by decide)).2.2.2.2.1 ⟨10, 10⟩
     (by decide) (by decide),
   (c10_invariants (fun c => (6 * c + 4) / 5) 10 (by decide)).2.2.2.2.2 ⟨10, 10⟩⟩
